import Mathlib

/-!
Verification of the core of the webcam attendance system: the attendance
state machine of `src/database/database_manager.py` (`mark_attendance`,
`remove_person`, the `attendance` table with its `UNIQUE(person_id, date)`
constraint), the nearest-neighbour matcher of
`src/face_module/face_recognizer.py` (`recognize_face_from_frame` and the
matching block of `recognize_faces_from_webcam`), and the per-session
recognition dedup cache (`recognized_today`, `reset_recognition_cache`).

Modelling conventions:
- SQL rows become list elements; a `SELECT ... fetchone` becomes the first
  matching element, `UPDATE ... WHERE` maps over all matching elements,
  `INSERT` appends, `DELETE ... WHERE` filters.
- Timestamps and dates are `Nat` (only equality and ordering of the ambient
  day matter to the claims); encodings are rational vectors, standing for
  the real-valued float vectors of the source.
- The float comparison `face_distance <= tolerance`, where
  `face_distance = sqrt (sum of squared differences)`, is embedded at the
  squared level: `sqrt q <= tol` iff `0 <= tol` and `q <= tol ^ 2`
  (`Real.sqrt_le_iff`); the lemma `acceptTest_iff_sqrt_le` below records
  this bridge, so the executable matcher over `ℚ` agrees with the
  real-valued source semantics.
-/

namespace AttendanceCam

/-- A row of the `attendance` table
(`database_manager.py`, `_create_tables`): columns `person_id`, `date`,
`time_in`, `time_out`, `status`, under the constraint
`UNIQUE(person_id, date)`. The surrogate `id` column plays no role in any
claim and is omitted. -/
structure AttendanceRecord where
  personId : Nat
  date : Nat
  timeIn : Option Nat
  timeOut : Option Nat
  status : String
  deriving DecidableEq, Repr

/-- The `WHERE person_id = ? AND date = ?` filter used by `mark_attendance`'s
SELECT and UPDATE statements. -/
def keyMatches (pid d : Nat) (r : AttendanceRecord) : Bool :=
  r.personId == pid && r.date == d

/-- `SELECT id FROM attendance WHERE person_id = ? AND date = ?` followed by
`fetchone()` is non-empty: the existence check of `mark_attendance`. -/
def attendanceExists (rs : List AttendanceRecord) (pid d : Nat) : Bool :=
  rs.any (keyMatches pid d)

/-- `UPDATE attendance SET time_out = ? WHERE person_id = ? AND date = ?`
(`mark_attendance`, existing-record branch): every matching row gets
`time_out = t`; all other columns and rows are untouched. -/
def setTimeOut (rs : List AttendanceRecord) (pid d t : Nat) : List AttendanceRecord :=
  rs.map (fun r => if keyMatches pid d r then
    AttendanceRecord.mk r.personId r.date r.timeIn (some t) r.status else r)

/-- The act phase of `mark_attendance`, taking the result `existed` of the
existence check as a parameter (in the source the check and the act are two
separate SQL statements, so under concurrent writers the check may be
stale).  Branches:
- `existed = true`: run the UPDATE, commit, return `True`;
- `existed = false` but a row with the key is present at insert time: the
  INSERT violates `UNIQUE(person_id, date)`, `sqlite3.IntegrityError` is
  raised, the blanket `except Exception` catches it and returns `False`
  with the table unchanged;
- otherwise: INSERT the new row
  `(person_id, date, time_in, status = 'present')` (`time_out` is absent
  from the column list, hence NULL) and return `True`. -/
def markAttendanceAct (rs : List AttendanceRecord) (pid d t : Nat) (existed : Bool) :
    Bool × List AttendanceRecord :=
  if existed then
    (true, setTimeOut rs pid d t)
  else if attendanceExists rs pid d then
    (false, rs)
  else
    (true, rs ++ [AttendanceRecord.mk pid d (some t) none "present"])

/-- `DatabaseManager.mark_attendance(person_id, time_in)` run without
interference: the existence check is immediately followed by the act.
`d` is `date.today()` and `t` the supplied `time_in`. -/
def markAttendance (rs : List AttendanceRecord) (pid d t : Nat) :
    Bool × List AttendanceRecord :=
  markAttendanceAct rs pid d t (attendanceExists rs pid d)

/-- Number of attendance rows with key `(pid, d)`. -/
def countMatching (rs : List AttendanceRecord) (pid d : Nat) : Nat :=
  rs.countP (keyMatches pid d)

/-- A sequence of sequential `mark_attendance` calls, each given as
`(person_id, date, time_in)`. -/
def runCalls (rs : List AttendanceRecord) (calls : List (Nat × Nat × Nat)) :
    List AttendanceRecord :=
  calls.foldl (fun acc c => (markAttendance acc c.1 c.2.1 c.2.2).2) rs

/-- A row of the `people` table: `id` (INTEGER PRIMARY KEY), `name`
(UNIQUE), `role`, and the pickled `face_encoding`, modelled as a rational
vector.  `image_path` and `created_at` play no role in any claim. -/
structure Person where
  id : Nat
  name : String
  role : String
  encoding : List ℚ
  deriving DecidableEq, Repr

/-- The two tables of the database. -/
structure DB where
  people : List Person
  attendance : List AttendanceRecord
  deriving DecidableEq, Repr

/-- `DatabaseManager._get_person_id`: `SELECT id FROM people WHERE name = ?`,
`fetchone()`, returning the id of the first row with that name (names are
UNIQUE, so there is at most one). -/
def getPersonId (people : List Person) (name : String) : Option Nat :=
  (people.find? (fun p => p.name == name)).map Person.id

/-- `DatabaseManager.remove_person(name)`: look up the id; if absent print
an error and return `False` leaving the database unchanged; otherwise
`DELETE FROM attendance WHERE person_id = ?` then
`DELETE FROM people WHERE id = ?` and return `True`. -/
def removePerson (db : DB) (name : String) : Bool × DB :=
  match getPersonId db.people name with
  | none => (false, db)
  | some pid =>
      (true, DB.mk (db.people.filter (fun p => ! (p.id == pid)))
                   (db.attendance.filter (fun a => ! (a.personId == pid))))

/-- An entry of the `known_faces` list handed to `FaceRecognizer`: a tuple
`(person_id, name, face_encoding)` as produced by
`DatabaseManager.get_all_face_encodings`. -/
structure KnownFace where
  id : Nat
  name : String
  encoding : List ℚ
  deriving DecidableEq, Repr, Inhabited

/-- `DatabaseManager.get_all_face_encodings`:
`SELECT id, name, face_encoding FROM people` with no ORDER BY; an SQLite
full scan of a rowid table yields rows in rowid order, and `id` is the
rowid alias, so the list keeps the people list's order (ascending id for a
registry built by `add_person`, since `AUTOINCREMENT` ids increase). -/
def getAllFaceEncodings (people : List Person) : List KnownFace :=
  people.map (fun p => KnownFace.mk p.id p.name p.encoding)

/-- Squared Euclidean distance between two vectors;
`face_recognition.face_distance` is `sqrt` of this. -/
def sqDist (a b : List ℚ) : ℚ :=
  (List.zipWith (fun x y => (x - y) ^ 2) a b).sum

/-- Minimum of `d :: l`. -/
def minFrom (d : ℚ) : List ℚ → ℚ
  | [] => d
  | e :: es => min d (minFrom e es)

/-- `np.argmin` on `d :: l`: the first index attaining the minimum (on a
tie `np.argmin` keeps the earlier index). -/
def argminFrom (d : ℚ) : List ℚ → Nat
  | [] => 0
  | e :: es => if minFrom e es < d then argminFrom e es + 1 else 0

/-- The list `face_recognition.face_distance(known_face_encodings, probe)`,
at the squared level. -/
def sqDists (faces : List KnownFace) (probe : List ℚ) : List ℚ :=
  faces.map (fun f => sqDist f.encoding probe)

/-- `best_match_index = np.argmin(face_distances)`. -/
def bestIndex (faces : List KnownFace) (probe : List ℚ) : Nat :=
  match faces with
  | [] => 0
  | f :: fs => argminFrom (sqDist f.encoding probe) (sqDists fs probe)

/-- The minimum squared distance from the probe to the registry. -/
def minSqDist (faces : List KnownFace) (probe : List ℚ) : ℚ :=
  match faces with
  | [] => 0
  | f :: fs => minFrom (sqDist f.encoding probe) (sqDists fs probe)

/-- The test `face_distances[i] <= tolerance` of
`face_recognition.compare_faces`, expressed on the squared distance `q`:
`sqrt q <= tol` iff `0 <= tol ∧ q <= tol ^ 2` (see
`acceptTest_iff_sqrt_le`). -/
def acceptTest (tol q : ℚ) : Bool :=
  decide (0 ≤ tol ∧ q ≤ tol ^ 2)

/-- The `person_id` field of the matcher's result
(`recognize_face_from_frame`, and identically the webcam loop):
`person_id` starts as `None`; if the registry is non-empty and
`matches[best_match_index]` holds, it becomes
`known_face_ids[best_match_index]`. -/
def recognizeId (faces : List KnownFace) (probe : List ℚ) (tol : ℚ) : Option Nat :=
  match faces with
  | [] => none
  | f :: fs =>
    if acceptTest tol ((sqDists (f :: fs) probe).getD (bestIndex (f :: fs) probe) 0)
    then some (((f :: fs).getD (bestIndex (f :: fs) probe) default).id)
    else none

/-- The `confidence` field of the matcher's result: initialised to `0.0`
and set to `1 - face_distances[best_match_index]` exactly when the best
match passes the tolerance test.  The source applies no clamping. -/
noncomputable def recognizeConfidence (faces : List KnownFace) (probe : List ℚ) (tol : ℚ) : ℝ :=
  match faces with
  | [] => 0
  | f :: fs =>
    if acceptTest tol ((sqDists (f :: fs) probe).getD (bestIndex (f :: fs) probe) 0)
    then 1 - Real.sqrt (((sqDists (f :: fs) probe).getD (bestIndex (f :: fs) probe) 0 : ℚ) : ℝ)
    else 0

/-- The dedup guard of the webcam loop (`recognize_faces_from_webcam`,
lines 94-98), executed for an accepted match of `pid`: when the callback
`on_recognition` is supplied (`cb = true`) and `pid` is not yet in
`recognized_today`, the callback fires and `pid` is added; otherwise
nothing happens.  The first component records whether the callback was
invoked. -/
def dedupStep (cb : Bool) (cache : List Nat) (pid : Nat) : Bool × List Nat :=
  if cb = true ∧ ¬ pid ∈ cache then (true, pid :: cache) else (false, cache)

/-- Folding `dedupStep` over a sequence of accepted matches, counting the
callback invocations. -/
def runDedup (cb : Bool) : List Nat → List Nat → Nat × List Nat
  | cache, [] => (0, cache)
  | cache, pid :: rest =>
    let s := dedupStep cb cache pid
    let r := runDedup cb s.2 rest
    ((if s.1 then 1 else 0) + r.1, r.2)

/-- `FaceRecognizer.reset_recognition_cache`: `recognized_today.clear()`. -/
def resetRecognitionCache : List Nat → List Nat :=
  fun _ => []

/-- The webcam loop's recognition step as wired by
`CLIInterface.start_monitoring_menu`: the callback is
`on_person_recognized`, which calls `db.mark_attendance(person_id)` and
DISCARDS its boolean result (`persistOk` here); afterwards the loop adds
`person_id` to `recognized_today` unconditionally.  First component:
whether the callback (and with it the attendance write) was invoked. -/
def monitoringStep (cache : List Nat) (pid : Nat) (persistOk : Bool) : Bool × List Nat :=
  if pid ∈ cache then (false, cache) else (true, pid :: cache)

/-! ### Helper lemmas: attendance table -/

/-- Unfolding the row filter. -/
theorem keyMatches_iff (pid d : Nat) (r : AttendanceRecord) :
    keyMatches pid d r = true ↔ r.personId = pid ∧ r.date = d := by
  simp [keyMatches]

/-- The UPDATE of `mark_attendance` touches neither `person_id` nor `date`,
so it does not change which rows a key filter selects. -/
theorem keyMatches_setTimeOut_elem (pid d t p q : Nat) (r : AttendanceRecord) :
    keyMatches p q (if keyMatches pid d r then
      AttendanceRecord.mk r.personId r.date r.timeIn (some t) r.status else r)
      = keyMatches p q r := by
  split <;> simp [keyMatches]

theorem countMatching_setTimeOut (rs : List AttendanceRecord) (pid d t p q : Nat) :
    countMatching (setTimeOut rs pid d t) p q = countMatching rs p q := by
  induction rs with
  | nil => rfl
  | cons r rs ih =>
      simp only [countMatching, setTimeOut, List.map_cons, List.countP_cons] at ih ⊢
      rw [keyMatches_setTimeOut_elem]
      exact congrArg (· + _) ih

theorem attendanceExists_iff_count (rs : List AttendanceRecord) (pid d : Nat) :
    attendanceExists rs pid d = true ↔ 1 ≤ countMatching rs pid d := by
  rw [attendanceExists, List.any_eq_true, countMatching]
  rw [show (1 ≤ List.countP (keyMatches pid d) rs) ↔ 0 < List.countP (keyMatches pid d) rs
    from Iff.rfl]
  exact List.countP_pos_iff.symm

theorem markAttendance_fresh (rs : List AttendanceRecord) (pid d t : Nat)
    (h : attendanceExists rs pid d = false) :
    markAttendance rs pid d t
      = (true, rs ++ [AttendanceRecord.mk pid d (some t) none "present"]) := by
  simp [markAttendance, markAttendanceAct, h]

theorem markAttendance_seen (rs : List AttendanceRecord) (pid d t : Nat)
    (h : attendanceExists rs pid d = true) :
    markAttendance rs pid d t = (true, setTimeOut rs pid d t) := by
  simp [markAttendance, markAttendanceAct, h]

/-- Once a key has at least one row, any single `mark_attendance` call keeps
that key's row count unchanged (UPDATEs rewrite rows in place; an INSERT
with this key only happens when the key has no row). -/
theorem countMatching_markAttendance (rs : List AttendanceRecord) (p q u pid d : Nat)
    (h : 1 ≤ countMatching rs pid d) :
    countMatching (markAttendance rs p q u).2 pid d = countMatching rs pid d := by
  by_cases hex : attendanceExists rs p q = true
  · rw [markAttendance_seen rs p q u hex]
    exact countMatching_setTimeOut rs p q u pid d
  · rw [markAttendance_fresh rs p q u (by simpa using hex)]
    simp only [countMatching, List.countP_append]
    have hnew : keyMatches pid d (AttendanceRecord.mk p q (some u) none "present") = false := by
      by_contra hk
      rw [Bool.not_eq_false, keyMatches_iff] at hk
      obtain ⟨h1, h2⟩ := hk
      simp only at h1 h2
      subst h1; subst h2
      rw [attendanceExists_iff_count] at hex
      exact hex h
    simp [List.countP_cons, hnew, countMatching]

theorem countMatching_runCalls (rs : List AttendanceRecord) (pid d : Nat)
    (calls : List (Nat × Nat × Nat)) (h : 1 ≤ countMatching rs pid d) :
    countMatching (runCalls rs calls) pid d = countMatching rs pid d := by
  induction calls generalizing rs with
  | nil => rfl
  | cons c cs ih =>
      rw [show runCalls rs (c :: cs) = runCalls (markAttendance rs c.1 c.2.1 c.2.2).2 cs from rfl]
      rw [ih _ (by rw [countMatching_markAttendance rs c.1 c.2.1 c.2.2 pid d h]; exact h)]
      exact countMatching_markAttendance rs c.1 c.2.1 c.2.2 pid d h

theorem filter_setTimeOut_eq_nil (rs : List AttendanceRecord) (pid d t : Nat)
    (h : countMatching rs pid d = 0) :
    (setTimeOut rs pid d t).filter (keyMatches pid d) = [] := by
  rw [List.filter_eq_nil_iff]
  intro a ha
  rw [setTimeOut, List.mem_map] at ha
  obtain ⟨r, hr, hra⟩ := ha
  rw [countMatching, List.countP_eq_zero] at h
  rw [← hra, keyMatches_setTimeOut_elem]
  exact h r hr

/-! ### Claim C1 -/

/-- C1: for a `(person_id, date)` key with no attendance row, the first
`mark_attendance` call succeeds and appends exactly one row with
`time_in` = the supplied timestamp, `time_out = NULL` and
`status = 'present'`; the key then has exactly one row, and it still has
exactly one row after any further sequence of `mark_attendance` calls
(later calls for the same key only UPDATE, never INSERT). -/
theorem mark_attendance_first_creates_unique (rs : List AttendanceRecord) (pid d t : Nat)
    (h : countMatching rs pid d = 0) :
    markAttendance rs pid d t
      = (true, rs ++ [AttendanceRecord.mk pid d (some t) none "present"])
    ∧ (markAttendance rs pid d t).2.filter (keyMatches pid d)
      = [AttendanceRecord.mk pid d (some t) none "present"]
    ∧ countMatching (markAttendance rs pid d t).2 pid d = 1
    ∧ ∀ calls : List (Nat × Nat × Nat),
        countMatching (runCalls (markAttendance rs pid d t).2 calls) pid d = 1 := by
  have hex : attendanceExists rs pid d = false := by
    by_contra hc
    rw [Bool.not_eq_false, attendanceExists_iff_count, h] at hc
    exact Nat.not_succ_le_zero 0 hc
  have heq := markAttendance_fresh rs pid d t
  have hfil : rs.filter (keyMatches pid d) = [] := by
    rw [List.filter_eq_nil_iff]
    rw [countMatching, List.countP_eq_zero] at h
    exact h
  have hkey : keyMatches pid d (AttendanceRecord.mk pid d (some t) none "present") = true := by
    simp [keyMatches]
  have hcount : countMatching (markAttendance rs pid d t).2 pid d = 1 := by
    rw [heq hex]
    simp only [countMatching, List.countP_append, List.countP_cons, List.countP_nil, hkey]
    rw [countMatching] at h
    simp [h]
  refine ⟨heq hex, ?_, hcount, ?_⟩
  · rw [heq hex]
    simp [List.filter_append, hfil, hkey]
  · intro calls
    rw [countMatching_runCalls _ pid d calls (by rw [hcount]), hcount]

/-- Witness for C1 at a concrete input: empty table, then the call for key
`(1, 2)` with timestamp `5`, followed by the concrete call sequence
`[(1, 2, 9), (3, 2, 4)]`. -/
theorem mark_attendance_first_creates_unique_witness :
    markAttendance [] 1 2 5
      = (true, [AttendanceRecord.mk 1 2 (some 5) none "present"])
    ∧ countMatching (markAttendance [] 1 2 5).2 1 2 = 1
    ∧ countMatching (runCalls (markAttendance [] 1 2 5).2 [(1, 2, 9), (3, 2, 4)]) 1 2 = 1 := by
  have h := mark_attendance_first_creates_unique [] 1 2 5 (by decide)
  exact ⟨h.1, h.2.2.1, h.2.2.2 [(1, 2, 9), (3, 2, 4)]⟩

/-! ### Claim C2 -/

/-- C2: when the key `(pid, d)` already has a row, `mark_attendance`
succeeds and rewrites every row in place: a row matching the key keeps its
`person_id`, `date`, `time_in` and `status` and only gets
`time_out` = the supplied timestamp; every other row is untouched (stated
position by position, so nothing is inserted, deleted or moved).
Consequently, submitting two events with timestamps `t1` then `t2` for a
fresh key - in whichever order the two timestamps are submitted - leaves
exactly one row, with `time_in` = the first submitted timestamp and
`time_out` = the second submitted timestamp. -/
theorem mark_attendance_seen_updates_time_out :
    (∀ (rs : List AttendanceRecord) (pid d t i : Nat),
      attendanceExists rs pid d = true →
        (markAttendance rs pid d t).1 = true
        ∧ (markAttendance rs pid d t).2[i]? = (rs[i]?).map (fun r =>
            if keyMatches pid d r then
              AttendanceRecord.mk r.personId r.date r.timeIn (some t) r.status
            else r))
    ∧ (∀ (rs : List AttendanceRecord) (pid d t1 t2 : Nat),
      countMatching rs pid d = 0 →
        ((markAttendance (markAttendance rs pid d t1).2 pid d t2).2.filter (keyMatches pid d))
          = [AttendanceRecord.mk pid d (some t1) (some t2) "present"]) := by
  constructor
  · intro rs pid d t i hex
    rw [markAttendance_seen rs pid d t hex]
    exact ⟨rfl, List.getElem?_map _ rs i⟩
  · intro rs pid d t1 t2 h
    have hex : attendanceExists rs pid d = false := by
      by_contra hc
      rw [Bool.not_eq_false, attendanceExists_iff_count, h] at hc
      exact Nat.not_succ_le_zero 0 hc
    rw [markAttendance_fresh rs pid d t1 hex]
    have hkey : keyMatches pid d (AttendanceRecord.mk pid d (some t1) none "present") = true := by
      simp [keyMatches]
    have hex2 : attendanceExists
        (rs ++ [AttendanceRecord.mk pid d (some t1) none "present"]) pid d = true := by
      rw [attendanceExists, List.any_eq_true]
      exact ⟨AttendanceRecord.mk pid d (some t1) none "present", by simp, hkey⟩
    rw [markAttendance_seen _ pid d t2 hex2]
    rw [show setTimeOut (rs ++ [AttendanceRecord.mk pid d (some t1) none "present"]) pid d t2
        = setTimeOut rs pid d t2
          ++ setTimeOut [AttendanceRecord.mk pid d (some t1) none "present"] pid d t2
      from List.map_append _ rs _]
    rw [List.filter_append, filter_setTimeOut_eq_nil rs pid d t2 h]
    simp [setTimeOut, hkey, keyMatches]

/-- Witness for C2 at concrete inputs: an in-place `time_out` update on a
one-row table, and the two-call scenario on an empty table with timestamps
`4` then `9`. -/
theorem mark_attendance_seen_updates_time_out_witness :
    ((markAttendance [AttendanceRecord.mk 1 2 (some 3) none "present"] 1 2 7).1 = true
    ∧ (markAttendance [AttendanceRecord.mk 1 2 (some 3) none "present"] 1 2 7).2[0]?
        = some (AttendanceRecord.mk 1 2 (some 3) (some 7) "present"))
    ∧ ((markAttendance (markAttendance [] 1 2 4).2 1 2 9).2.filter (keyMatches 1 2)
        = [AttendanceRecord.mk 1 2 (some 4) (some 9) "present"]) := by
  have h := mark_attendance_seen_updates_time_out
  have h1 := h.1 [AttendanceRecord.mk 1 2 (some 3) none "present"] 1 2 7 0 (by decide)
  refine ⟨⟨h1.1, ?_⟩, h.2 [] 1 2 4 9 (by decide)⟩
  rw [h1.2]
  decide

/-! ### Claim C7 -/

/-- Counterexample to C7: with one row `(1, 0)` already present (inserted
by a concurrent worker after this worker's existence check returned
"absent"), the INSERT of `mark_attendance` hits the
`UNIQUE(person_id, date)` constraint; the blanket `except` returns
`False` - the failure IS surfaced to the caller - and the table is left
unchanged (no `PRESENT_SEEN` update of `time_out` to `7` happens). -/
theorem mark_attendance_conflict_cex :
    (markAttendanceAct [AttendanceRecord.mk 1 0 (some 5) none "present"] 1 0 7 false).1 = false
    ∧ (markAttendanceAct [AttendanceRecord.mk 1 0 (some 5) none "present"] 1 0 7 false).2
        = [AttendanceRecord.mk 1 0 (some 5) none "present"] := by
  constructor <;> rfl

/-- C7 (amended): when the insert phase of `mark_attendance` runs against a
table that already has a row for the key (a lost race on the
`(person_id, date)` uniqueness), the unique-constraint violation is caught
by the blanket exception handler and the call returns `False` with the
table unchanged; it does NOT retry as an update, and the failure is
surfaced to the caller as the `False` return value. -/
theorem mark_attendance_conflict_returns_false (rs : List AttendanceRecord) (pid d t : Nat)
    (h : attendanceExists rs pid d = true) :
    markAttendanceAct rs pid d t false = (false, rs) := by
  simp [markAttendanceAct, h]

/-- Witness for the amended C7 at a concrete input: key `(2, 1)` already
has a row when the stale-check insert runs. -/
theorem mark_attendance_conflict_returns_false_witness :
    markAttendanceAct [AttendanceRecord.mk 2 1 (some 3) none "present"] 2 1 8 false
      = (false, [AttendanceRecord.mk 2 1 (some 3) none "present"]) :=
  mark_attendance_conflict_returns_false
    [AttendanceRecord.mk 2 1 (some 3) none "present"] 2 1 8 (by decide)

/-! ### Claim C10 -/

/-- C10: `remove_person(name)` returns `False` and leaves both tables
unchanged when no person has that name; when a person with that name
exists (with id `pid`), it returns `True`, the resulting `people` table
holds exactly the rows whose id differs from `pid`, and the resulting
`attendance` table holds exactly the rows whose `person_id` differs from
`pid` - i.e. that person's row and all of that person's attendance records
are deleted and everything else is kept. -/
theorem remove_person_spec (db : DB) (name : String) :
    (getPersonId db.people name = none → removePerson db name = (false, db))
    ∧ (∀ pid : Nat, getPersonId db.people name = some pid →
        (removePerson db name).1 = true
        ∧ (∃ p, p ∈ db.people ∧ p.name = name ∧ p.id = pid)
        ∧ (∀ p : Person, p ∈ (removePerson db name).2.people
            ↔ p ∈ db.people ∧ ¬ p.id = pid)
        ∧ (∀ a : AttendanceRecord, a ∈ (removePerson db name).2.attendance
            ↔ a ∈ db.attendance ∧ ¬ a.personId = pid)) := by
  constructor
  · intro h
    simp [removePerson, h]
  · intro pid h
    obtain ⟨p, hfind, hpid⟩ : ∃ p, db.people.find? (fun p => p.name == name) = some p
        ∧ p.id = pid := by
      rw [getPersonId] at h
      rcases hf : db.people.find? (fun p => p.name == name) with _ | p
      · rw [hf] at h; exact absurd h (by simp)
      · rw [hf] at h
        exact ⟨p, hf, by simpa using h⟩
    have hmem : p ∈ db.people := List.mem_of_find?_eq_some hfind
    have hname : p.name = name := by
      have := List.find?_some hfind
      simpa using this
    have hrw : removePerson db name
        = (true, DB.mk (db.people.filter (fun q => ! (q.id == pid)))
                       (db.attendance.filter (fun a => ! (a.personId == pid)))) := by
      simp [removePerson, h]
    refine ⟨by rw [hrw], ⟨p, hmem, hname, hpid⟩, ?_, ?_⟩
    · intro q
      rw [hrw]
      simp [List.mem_filter]
    · intro a
      rw [hrw]
      simp [List.mem_filter]

/-- Witness for C10 at concrete inputs: removing an absent name `"Zed"`
leaves the database unchanged; removing `"Ann"` (id 1) keeps Bob's row and
Bob's attendance while Ann's attendance row is dropped. -/
theorem remove_person_spec_witness :
    removePerson (DB.mk [Person.mk 2 "Bob" "S" [1]] []) "Zed"
      = (false, DB.mk [Person.mk 2 "Bob" "S" [1]] [])
    ∧ (removePerson (DB.mk [Person.mk 1 "Ann" "S" [0], Person.mk 2 "Bob" "S" [1]]
        [AttendanceRecord.mk 1 2 (some 5) none "present"]) "Ann").1 = true
    ∧ (Person.mk 2 "Bob" "S" [1]
        ∈ (removePerson (DB.mk [Person.mk 1 "Ann" "S" [0], Person.mk 2 "Bob" "S" [1]]
            [AttendanceRecord.mk 1 2 (some 5) none "present"]) "Ann").2.people
        ↔ (Person.mk 2 "Bob" "S" [1]
            ∈ [Person.mk 1 "Ann" "S" [0], Person.mk 2 "Bob" "S" [1]]
          ∧ ¬ (Person.mk 2 "Bob" "S" ([1] : List ℚ)).id = 1))
    ∧ (AttendanceRecord.mk 1 2 (some 5) none "present"
        ∈ (removePerson (DB.mk [Person.mk 1 "Ann" "S" [0], Person.mk 2 "Bob" "S" [1]]
            [AttendanceRecord.mk 1 2 (some 5) none "present"]) "Ann").2.attendance
        ↔ (AttendanceRecord.mk 1 2 (some 5) none "present"
            ∈ [AttendanceRecord.mk 1 2 (some 5) none "present"]
          ∧ ¬ (AttendanceRecord.mk 1 2 (some 5) none "present").personId = 1)) := by
  have h1 := (remove_person_spec (DB.mk [Person.mk 2 "Bob" "S" [1]] []) "Zed").1 (by decide)
  have h2 := (remove_person_spec
    (DB.mk [Person.mk 1 "Ann" "S" [0], Person.mk 2 "Bob" "S" [1]]
      [AttendanceRecord.mk 1 2 (some 5) none "present"]) "Ann").2 1 (by decide)
  exact ⟨h1, h2.1, h2.2.2.1 (Person.mk 2 "Bob" "S" [1]),
    h2.2.2.2 (AttendanceRecord.mk 1 2 (some 5) none "present")⟩

/-! ### Helper lemmas: recognition dedup cache -/

/-- An identity already in `recognized_today` never fires the callback and
leaves the cache untouched, over any run of repeated matches. -/
theorem runDedup_of_mem (pid : Nat) (cache : List Nat) (hp : pid ∈ cache) :
    ∀ m : Nat, runDedup true cache (List.replicate m pid) = (0, cache) := by
  intro m
  induction m with
  | zero => rfl
  | succ k ih =>
      rw [List.replicate_succ, runDedup]
      have hs : dedupStep true cache pid = (false, cache) := by
        simp [dedupStep, hp]
      rw [hs]
      simp [ih]

/-! ### Claim C3 -/

/-- C3: for any run of `n ≥ 1` accepted matches of the same `pid` within
one monitoring session (callback supplied, `pid` not yet in
`recognized_today`), the recognition callback fires exactly once; `pid`
then sits in the cache, so any number of further accepted matches of `pid`
fire the callback zero times, until `reset_recognition_cache` clears the
cache, after which a match of `pid` fires it again. -/
theorem dedup_emits_exactly_once (cache : List Nat) (pid n : Nat)
    (hn : 1 ≤ n) (hp : ¬ pid ∈ cache) :
    (runDedup true cache (List.replicate n pid)).1 = 1
    ∧ pid ∈ (runDedup true cache (List.replicate n pid)).2
    ∧ (∀ m : Nat, (runDedup true (runDedup true cache (List.replicate n pid)).2
          (List.replicate m pid)).1 = 0)
    ∧ (runDedup true (resetRecognitionCache
          (runDedup true cache (List.replicate n pid)).2) [pid]).1 = 1 := by
  obtain ⟨k, rfl⟩ : ∃ k, n = k + 1 := ⟨n - 1, (Nat.succ_pred_eq_of_pos hn).symm⟩
  have hstep : dedupStep true cache pid = (true, pid :: cache) := by
    simp [dedupStep, hp]
  have hrun : runDedup true cache (List.replicate (k + 1) pid) = (1, pid :: cache) := by
    rw [List.replicate_succ, runDedup, hstep]
    simp [runDedup_of_mem pid (pid :: cache) (List.mem_cons_self pid cache) k]
  rw [hrun]
  refine ⟨rfl, List.mem_cons_self pid cache,
    fun m => by rw [runDedup_of_mem pid (pid :: cache) (List.mem_cons_self pid cache) m], ?_⟩
  rw [resetRecognitionCache]
  simp [runDedup, dedupStep]

/-- Witness for C3 at a concrete input: two accepted matches of identity
`7` starting from an empty cache, then three more, then one after reset. -/
theorem dedup_emits_exactly_once_witness :
    (runDedup true [] (List.replicate 2 7)).1 = 1
    ∧ 7 ∈ (runDedup true [] (List.replicate 2 7)).2
    ∧ (runDedup true (runDedup true [] (List.replicate 2 7)).2 (List.replicate 3 7)).1 = 0
    ∧ (runDedup true (resetRecognitionCache
        (runDedup true [] (List.replicate 2 7)).2) [7]).1 = 1 := by
  have h := dedup_emits_exactly_once [] 7 2 (by decide) (by decide)
  exact ⟨h.1, h.2.1, h.2.2.1 3, h.2.2.2⟩

/-! ### Claim C8 -/

/-- Counterexample to C8: the callback for identity `1` is invoked with a
FAILING attendance write (`persistOk = false`), yet `1` is added to
`recognized_today` anyway, so a later accepted match of identity `1` -
even one whose write would succeed - no longer invokes the callback: the
failed write is never retried within the session. -/
theorem monitoring_failed_persist_cex :
    (monitoringStep [] 1 false).1 = true
    ∧ 1 ∈ (monitoringStep [] 1 false).2
    ∧ (monitoringStep (monitoringStep [] 1 false).2 1 true).1 = false := by
  refine ⟨rfl, ?_, rfl⟩
  simp [monitoringStep]

/-- C8 (amended): the webcam loop adds `identity_id` to the session dedup
cache as soon as the callback is invoked, regardless of whether the
callback's `mark_attendance` call succeeded (its boolean result is
discarded), so an identity whose persistence failed cannot trigger the
recognition callback again until `reset_recognition_cache` is called. -/
theorem monitoring_failed_persist_still_cached (cache : List Nat) (pid : Nat)
    (persistOk : Bool) (hp : ¬ pid ∈ cache) :
    (monitoringStep cache pid persistOk).1 = true
    ∧ (monitoringStep cache pid persistOk).2 = pid :: cache
    ∧ ∀ ok2 : Bool, (monitoringStep (monitoringStep cache pid persistOk).2 pid ok2).1
        = false := by
  have h : monitoringStep cache pid persistOk = (true, pid :: cache) := by
    simp [monitoringStep, hp]
  rw [h]
  exact ⟨rfl, rfl, fun ok2 => by simp [monitoringStep]⟩

/-- Witness for the amended C8 at a concrete input: identity `5`, failed
write, empty cache. -/
theorem monitoring_failed_persist_still_cached_witness :
    (monitoringStep [] 5 false).1 = true
    ∧ (monitoringStep [] 5 false).2 = [5]
    ∧ (monitoringStep (monitoringStep [] 5 false).2 5 true).1 = false := by
  have h := monitoring_failed_persist_still_cached [] 5 false (by decide)
  exact ⟨h.1, h.2.1, h.2.2 true⟩

/-! ### Helper lemmas: minimum and argmin -/

theorem minFrom_le (l : List ℚ) : ∀ d x : ℚ, x ∈ d :: l → minFrom d l ≤ x := by
  induction l with
  | nil =>
      intro d x hx
      rw [List.mem_singleton] at hx
      subst hx
      exact le_of_eq rfl
  | cons e es ih =>
      intro d x hx
      rw [show minFrom d (e :: es) = min d (minFrom e es) from rfl]
      rw [List.mem_cons] at hx
      rcases hx with rfl | hx
      · exact min_le_left _ _
      · exact le_trans (min_le_right _ _) (ih e x hx)

theorem minFrom_mem (l : List ℚ) : ∀ d : ℚ, minFrom d l ∈ d :: l := by
  induction l with
  | nil => intro d; rw [show minFrom d [] = d from rfl]; exact List.mem_singleton_self d
  | cons e es ih =>
      intro d
      rw [show minFrom d (e :: es) = min d (minFrom e es) from rfl]
      rcases le_total d (minFrom e es) with h | h
      · rw [min_eq_left h]; exact List.mem_cons_self _ _
      · rw [min_eq_right h]; exact List.mem_cons_of_mem _ (ih e)

theorem argminFrom_le_length (l : List ℚ) : ∀ d : ℚ, argminFrom d l ≤ l.length := by
  induction l with
  | nil => intro d; exact Nat.le_refl 0
  | cons e es ih =>
      intro d
      by_cases h : minFrom e es < d
      · rw [show argminFrom d (e :: es) = argminFrom e es + 1 by rw [argminFrom, if_pos h]]
        exact Nat.succ_le_succ (ih e)
      · rw [show argminFrom d (e :: es) = 0 by rw [argminFrom, if_neg h]]
        exact Nat.zero_le _

/-- The entry at `np.argmin` is the minimum. -/
theorem getD_argminFrom (l : List ℚ) : ∀ d : ℚ,
    (d :: l).getD (argminFrom d l) 0 = minFrom d l := by
  induction l with
  | nil => intro d; rfl
  | cons e es ih =>
      intro d
      by_cases h : minFrom e es < d
      · rw [show argminFrom d (e :: es) = argminFrom e es + 1 by rw [argminFrom, if_pos h]]
        rw [List.getD_cons_succ, ih e]
        rw [show minFrom d (e :: es) = min d (minFrom e es) from rfl]
        rw [min_eq_right (le_of_lt h)]
      · rw [show argminFrom d (e :: es) = 0 by rw [argminFrom, if_neg h]]
        rw [List.getD_cons_zero]
        rw [show minFrom d (e :: es) = min d (minFrom e es) from rfl]
        rw [min_eq_left (not_lt.mp h)]

/-- `np.argmin` returns the FIRST index attaining the minimum: every
earlier entry is strictly larger. -/
theorem argminFrom_first (l : List ℚ) : ∀ (d : ℚ) (k : Nat), k < argminFrom d l →
    minFrom d l < (d :: l).getD k 0 := by
  induction l with
  | nil => intro d k hk; exact absurd hk (Nat.not_lt_zero k)
  | cons e es ih =>
      intro d k hk
      by_cases h : minFrom e es < d
      · rw [show argminFrom d (e :: es) = argminFrom e es + 1
          by rw [argminFrom, if_pos h]] at hk
        rw [show minFrom d (e :: es) = min d (minFrom e es) from rfl,
          min_eq_right (le_of_lt h)]
        cases k with
        | zero => rw [List.getD_cons_zero]; exact h
        | succ k2 =>
            rw [List.getD_cons_succ]
            exact ih e k2 (Nat.lt_of_succ_lt_succ hk)
      · rw [show argminFrom d (e :: es) = 0 by rw [argminFrom, if_neg h]] at hk
        exact absurd hk (Nat.not_lt_zero k)

/-! ### Helper lemmas: matcher -/

theorem sqDists_cons (f : KnownFace) (fs : List KnownFace) (probe : List ℚ) :
    sqDists (f :: fs) probe = sqDist f.encoding probe :: sqDists fs probe := rfl

theorem getD_bestIndex_eq_minSqDist (f : KnownFace) (fs : List KnownFace) (probe : List ℚ) :
    (sqDists (f :: fs) probe).getD (bestIndex (f :: fs) probe) 0
      = minSqDist (f :: fs) probe := by
  rw [sqDists_cons]
  exact getD_argminFrom (sqDists fs probe) (sqDist f.encoding probe)

theorem bestIndex_lt_length (f : KnownFace) (fs : List KnownFace) (probe : List ℚ) :
    bestIndex (f :: fs) probe < (f :: fs).length := by
  have h := argminFrom_le_length (sqDists fs probe) (sqDist f.encoding probe)
  rw [show (sqDists fs probe).length = fs.length from List.length_map _ _] at h
  exact Nat.lt_succ_of_le h

theorem bestIndex_first (f : KnownFace) (fs : List KnownFace) (probe : List ℚ) (k : Nat)
    (hk : k < bestIndex (f :: fs) probe) :
    minSqDist (f :: fs) probe < (sqDists (f :: fs) probe).getD k 0 := by
  rw [sqDists_cons]
  exact argminFrom_first (sqDists fs probe) (sqDist f.encoding probe) k hk

theorem sqDists_getD (faces : List KnownFace) (probe : List ℚ) (k : Nat)
    (hk : k < faces.length) :
    (sqDists faces probe).getD k 0 = sqDist ((faces.getD k default).encoding) probe := by
  have h1 : k < (sqDists faces probe).length := by
    simp only [sqDists, List.length_map]; exact hk
  rw [List.getD_eq_getElem _ _ h1, List.getD_eq_getElem _ _ hk]
  simp only [sqDists]
  exact List.getElem_map _

theorem minSqDist_le (faces : List KnownFace) (probe : List ℚ) (f : KnownFace)
    (hf : f ∈ faces) : minSqDist faces probe ≤ sqDist f.encoding probe := by
  cases faces with
  | nil => exact absurd hf (List.not_mem_nil f)
  | cons g fs =>
      apply minFrom_le (sqDists fs probe) (sqDist g.encoding probe)
      have hmm : sqDist f.encoding probe
          ∈ List.map (fun x => sqDist x.encoding probe) (g :: fs) :=
        List.mem_map_of_mem _ hf
      simpa [sqDists] using hmm

theorem minSqDist_attained (f : KnownFace) (fs : List KnownFace) (probe : List ℚ) :
    ∃ g ∈ f :: fs, sqDist g.encoding probe = minSqDist (f :: fs) probe := by
  have h : minFrom (sqDist f.encoding probe) (sqDists fs probe)
      ∈ List.map (fun x => sqDist x.encoding probe) (f :: fs) :=
    minFrom_mem (sqDists fs probe) (sqDist f.encoding probe)
  rw [List.mem_map] at h
  obtain ⟨g, hg, hge⟩ := h
  exact ⟨g, hg, hge.trans rfl⟩

theorem sqDist_nonneg (a : List ℚ) : ∀ b : List ℚ, 0 ≤ sqDist a b := by
  induction a with
  | nil => intro b; exact le_of_eq rfl
  | cons x as ih =>
      intro b
      cases b with
      | nil => exact le_of_eq rfl
      | cons y bs =>
          rw [sqDist, List.zipWith_cons_cons, List.sum_cons]
          exact add_nonneg (sq_nonneg _) (ih bs)

theorem sqDist_self (a : List ℚ) : sqDist a a = 0 := by
  induction a with
  | nil => rfl
  | cons x as ih =>
      rw [sqDist, List.zipWith_cons_cons, List.sum_cons]
      rw [sqDist] at ih
      rw [ih]
      ring

theorem minSqDist_nonneg (faces : List KnownFace) (probe : List ℚ) :
    0 ≤ minSqDist faces probe := by
  cases faces with
  | nil => exact le_of_eq rfl
  | cons f fs =>
      obtain ⟨g, _, hge⟩ := minSqDist_attained f fs probe
      rw [← hge]
      exact sqDist_nonneg _ _

/-- The bridge between the source's real-valued comparison
`sqrt q <= tolerance` (with `q` the squared distance) and the executable
rational test `0 <= tolerance ∧ q <= tolerance ^ 2`. -/
theorem acceptTest_iff_sqrt_le (tol q : ℚ) :
    acceptTest tol q = true ↔ Real.sqrt (q : ℝ) ≤ (tol : ℝ) := by
  rw [Real.sqrt_le_iff, acceptTest, decide_eq_true_eq]
  constructor
  · rintro ⟨h1, h2⟩
    exact ⟨by exact_mod_cast h1, by exact_mod_cast h2⟩
  · rintro ⟨h1, h2⟩
    exact ⟨by exact_mod_cast h1, by exact_mod_cast h2⟩

theorem recognizeId_cons (f : KnownFace) (fs : List KnownFace) (probe : List ℚ) (tol : ℚ) :
    recognizeId (f :: fs) probe tol
      = if acceptTest tol (minSqDist (f :: fs) probe) = true
        then some (((f :: fs).getD (bestIndex (f :: fs) probe) default).id)
        else none := by
  rw [recognizeId, getD_bestIndex_eq_minSqDist]

theorem recognizeConfidence_cons (f : KnownFace) (fs : List KnownFace) (probe : List ℚ)
    (tol : ℚ) :
    recognizeConfidence (f :: fs) probe tol
      = if acceptTest tol (minSqDist (f :: fs) probe) = true
        then 1 - Real.sqrt ((minSqDist (f :: fs) probe : ℚ) : ℝ)
        else 0 := by
  rw [recognizeConfidence, getD_bestIndex_eq_minSqDist]

/-! ### Claim C5 -/

/-- C5: on an empty registry snapshot the matcher always returns a
rejected result - `person_id = None` with the initial `confidence = 0.0` -
for every probe vector and every tolerance, and it is a total function
(the embedding is defined on all inputs, mirroring the source, where
`compare_faces` on an empty list yields an empty match list and the
`len(...) > 0` guard skips the accept branch without error). -/
theorem matcher_empty_registry (probe : List ℚ) (tol : ℚ) :
    recognizeId [] probe tol = none ∧ recognizeConfidence [] probe tol = 0 :=
  ⟨rfl, rfl⟩

/-! ### Claim C4 -/

/-- C4: on a non-empty registry the matcher accepts - returns a non-`None`
`person_id` - exactly when the minimum Euclidean distance
`sqrt (minSqDist)` is at most the tolerance.  The second and third
conjuncts identify `sqrt (minSqDist)` as the minimum of the individual
Euclidean distances (it is a lower bound and it is attained).  Finally, a
probe equal to some registered `reference_encoding` has minimum Euclidean
distance 0 and is accepted whenever `tolerance ≥ 0`. -/
theorem matcher_accepts_iff_min_distance (faces : List KnownFace) (probe : List ℚ)
    (tol : ℚ) (hne : faces ≠ []) :
    ((recognizeId faces probe tol).isSome = true ↔
        Real.sqrt ((minSqDist faces probe : ℚ) : ℝ) ≤ (tol : ℝ))
    ∧ (∀ f ∈ faces, Real.sqrt ((minSqDist faces probe : ℚ) : ℝ)
        ≤ Real.sqrt ((sqDist f.encoding probe : ℚ) : ℝ))
    ∧ (∃ f ∈ faces, sqDist f.encoding probe = minSqDist faces probe)
    ∧ (∀ f ∈ faces, f.encoding = probe →
        Real.sqrt ((minSqDist faces probe : ℚ) : ℝ) = 0
        ∧ (0 ≤ tol → (recognizeId faces probe tol).isSome = true)) := by
  cases faces with
  | nil => exact absurd rfl hne
  | cons f fs =>
    have hiff : (recognizeId (f :: fs) probe tol).isSome = true ↔
        Real.sqrt ((minSqDist (f :: fs) probe : ℚ) : ℝ) ≤ (tol : ℝ) := by
      rw [recognizeId_cons, ← acceptTest_iff_sqrt_le]
      by_cases h : acceptTest tol (minSqDist (f :: fs) probe) = true
      · rw [if_pos h]
        simp [h]
      · rw [if_neg h]
        simp [h]
    refine ⟨hiff, ?_, minSqDist_attained f fs probe, ?_⟩
    · intro g hg
      apply Real.sqrt_le_sqrt
      exact_mod_cast minSqDist_le (f :: fs) probe g hg
    · intro g hg henc
      have h0 : minSqDist (f :: fs) probe = 0 := by
        have h1 := minSqDist_le (f :: fs) probe g hg
        rw [henc, sqDist_self] at h1
        exact le_antisymm h1 (minSqDist_nonneg _ _)
      have hsq : Real.sqrt ((minSqDist (f :: fs) probe : ℚ) : ℝ) = 0 := by
        rw [h0]
        simp
      refine ⟨hsq, fun htol => hiff.2 ?_⟩
      rw [hsq]
      exact_mod_cast htol

/-- Witness for C4 at a concrete input: one registered face with encoding
`[0]`, probe `[0]`, tolerance `1`. -/
theorem matcher_accepts_iff_min_distance_witness :
    ((recognizeId [KnownFace.mk 1 "A" [0]] [0] 1).isSome = true ↔
        Real.sqrt ((minSqDist [KnownFace.mk 1 "A" [0]] [0] : ℚ) : ℝ) ≤ ((1 : ℚ) : ℝ))
    ∧ Real.sqrt ((minSqDist [KnownFace.mk 1 "A" [0]] [0] : ℚ) : ℝ) = 0
    ∧ (recognizeId [KnownFace.mk 1 "A" [0]] [0] 1).isSome = true := by
  have h := matcher_accepts_iff_min_distance [KnownFace.mk 1 "A" [0]] [0] 1
    (List.cons_ne_nil _ _)
  have h4 := h.2.2.2 (KnownFace.mk 1 "A" [0]) (List.mem_singleton_self _) rfl
  exact ⟨h.1, h4.1, h4.2 (by norm_num)⟩

/-! ### Claim C6 -/

/-- C6: when the snapshot's ids are strictly increasing - which is how
`get_all_face_encodings` materialises the `people` table, an SQLite rowid
scan in ascending `id` order - an accepted result's `identity_id` is the
id of a face attaining the minimum distance, and it is the LOWEST id among
all faces attaining that minimum (`np.argmin` keeps the first index on a
tie).  Determinism of repeated calls is inherent: the embedded matcher is
a pure function of the snapshot, probe and tolerance. -/
theorem matcher_tie_lowest_id (faces : List KnownFace) (probe : List ℚ) (tol : ℚ)
    (i : Nat) (hsorted : (faces.map KnownFace.id).Pairwise (· < ·))
    (hacc : recognizeId faces probe tol = some i) :
    (∃ f ∈ faces, f.id = i ∧ sqDist f.encoding probe = minSqDist faces probe)
    ∧ (∀ f ∈ faces, sqDist f.encoding probe = minSqDist faces probe → i ≤ f.id) := by
  cases faces with
  | nil => exact absurd hacc (by rw [show recognizeId [] probe tol = none from rfl]; simp)
  | cons f0 fs =>
    have hblt : bestIndex (f0 :: fs) probe < (f0 :: fs).length := bestIndex_lt_length f0 fs probe
    rw [recognizeId_cons] at hacc
    by_cases hA : acceptTest tol (minSqDist (f0 :: fs) probe) = true
    case neg => rw [if_neg hA] at hacc; exact absurd hacc (by simp)
    rw [if_pos hA] at hacc
    have hieq : ((f0 :: fs).getD (bestIndex (f0 :: fs) probe) default).id = i := by
      simpa using hacc
    have hchosen : sqDist (((f0 :: fs).getD (bestIndex (f0 :: fs) probe) default).encoding)
        probe = minSqDist (f0 :: fs) probe := by
      rw [← sqDists_getD (f0 :: fs) probe _ hblt]
      exact getD_bestIndex_eq_minSqDist f0 fs probe
    have hchosen_mem : (f0 :: fs).getD (bestIndex (f0 :: fs) probe) default ∈ f0 :: fs := by
      rw [List.getD_eq_getElem _ _ hblt]
      exact List.getElem_mem hblt
    refine ⟨⟨_, hchosen_mem, hieq, hchosen⟩, ?_⟩
    intro g hg hgmin
    obtain ⟨k, hk, hkg⟩ := List.mem_iff_getElem.1 hg
    have hgd : (sqDists (f0 :: fs) probe).getD k 0 = minSqDist (f0 :: fs) probe := by
      rw [sqDists_getD (f0 :: fs) probe k hk, List.getD_eq_getElem _ _ hk, hkg]
      exact hgmin
    have hbk : bestIndex (f0 :: fs) probe ≤ k := by
      by_contra hlt
      push_neg at hlt
      have hfirst := bestIndex_first f0 fs probe k hlt
      rw [hgd] at hfirst
      exact lt_irrefl _ hfirst
    rcases Nat.eq_or_lt_of_le hbk with heq | hlt
    · have hge : (f0 :: fs).getD (bestIndex (f0 :: fs) probe) default = g := by
        rw [heq, List.getD_eq_getElem _ _ hk, hkg]
      rw [← hieq, hge]
    · have hmapb : bestIndex (f0 :: fs) probe < ((f0 :: fs).map KnownFace.id).length := by
        rw [List.length_map]; exact hblt
      have hmapk : k < ((f0 :: fs).map KnownFace.id).length := by
        rw [List.length_map]; exact hk
      have hpw := List.pairwise_iff_getElem.1 hsorted (bestIndex (f0 :: fs) probe) k
        hmapb hmapk hlt
      rw [List.getElem_map, List.getElem_map] at hpw
      rw [← hieq, List.getD_eq_getElem _ _ hblt]
      rw [show (f0 :: fs)[k] = g from hkg] at hpw
      exact le_of_lt hpw

/-- Witness for C6 at a concrete input: two faces with ids 1 and 2 share
the exact minimum distance 0 to the probe; the matcher picks id 1, which
attains the minimum, and the face with id 2 also attaining it satisfies
`1 ≤ 2`. -/
theorem matcher_tie_lowest_id_witness :
    (∃ f ∈ [KnownFace.mk 1 "A" [0], KnownFace.mk 2 "B" [0]], f.id = 1
      ∧ sqDist f.encoding [0] = minSqDist [KnownFace.mk 1 "A" [0], KnownFace.mk 2 "B" [0]] [0])
    ∧ sqDist (KnownFace.mk 2 "B" ([0] : List ℚ)).encoding [0]
        = minSqDist [KnownFace.mk 1 "A" [0], KnownFace.mk 2 "B" [0]] [0]
    ∧ 1 ≤ (KnownFace.mk 2 "B" ([0] : List ℚ)).id := by
  have htie : sqDist (KnownFace.mk 2 "B" ([0] : List ℚ)).encoding [0]
      = minSqDist [KnownFace.mk 1 "A" [0], KnownFace.mk 2 "B" [0]] [0] := by
    norm_num [sqDist, minSqDist, sqDists, minFrom]
  have h := matcher_tie_lowest_id [KnownFace.mk 1 "A" [0], KnownFace.mk 2 "B" [0]] [0] 1 1
    (by simp) (by norm_num [recognizeId, sqDists, bestIndex, argminFrom, minFrom,
      acceptTest, sqDist])
  exact ⟨h.1, htie, h.2 (KnownFace.mk 2 "B" [0]) (by simp) htie⟩

/-! ### Claim C9 -/

/-- Counterexample to C9: registry `[(id 1, encoding [0])]`, probe `[2]`,
tolerance `3`.  The probe is accepted (distance `2 ≤ 3`), and the reported
confidence is `1 - 2 = -1 < 0`: the source computes
`1 - face_distances[best_match_index]` with NO clamping to `[0, 1]`. -/
theorem confidence_below_zero_cex :
    recognizeId [KnownFace.mk 1 "A" [0]] [2] 3 = some 1
    ∧ recognizeConfidence [KnownFace.mk 1 "A" [0]] [2] 3 < 0 := by
  have hmin : minSqDist [KnownFace.mk 1 "A" [0]] [2] = 4 := by
    norm_num [minSqDist, sqDists, minFrom, sqDist]
  have hA : acceptTest 3 (minSqDist [KnownFace.mk 1 "A" [0]] [2]) = true := by
    rw [hmin, acceptTest, decide_eq_true_eq]
    norm_num
  constructor
  · norm_num [recognizeId, sqDists, bestIndex, argminFrom, minFrom, acceptTest, sqDist]
  · rw [recognizeConfidence_cons, if_pos hA, hmin]
    have h2 : Real.sqrt (((4 : ℚ) : ℝ)) = 2 := by
      rw [show (((4 : ℚ) : ℝ)) = (2 : ℝ) ^ 2 by norm_num]
      exact Real.sqrt_sq (by norm_num)
    rw [h2]
    norm_num

/-- C9 (amended): for every accepted match the reported confidence equals
`1 - min_distance` exactly, with no clamping: it is always at most 1
(distances are nonnegative) but can drop below 0 whenever the minimum
distance exceeds 1.  The accept decision (`recognizeId`) is computed from
the distances and the tolerance alone; the confidence plays no role in
it. -/
theorem confidence_formula_unclamped (faces : List KnownFace) (probe : List ℚ)
    (tol : ℚ) (i : Nat) (hacc : recognizeId faces probe tol = some i) :
    recognizeConfidence faces probe tol
      = 1 - Real.sqrt ((minSqDist faces probe : ℚ) : ℝ)
    ∧ recognizeConfidence faces probe tol ≤ 1 := by
  cases faces with
  | nil => exact absurd hacc (by rw [show recognizeId [] probe tol = none from rfl]; simp)
  | cons f fs =>
    have hA : acceptTest tol (minSqDist (f :: fs) probe) = true := by
      by_contra hA
      rw [recognizeId_cons, if_neg hA] at hacc
      exact absurd hacc (by simp)
    have heq : recognizeConfidence (f :: fs) probe tol
        = 1 - Real.sqrt ((minSqDist (f :: fs) probe : ℚ) : ℝ) := by
      rw [recognizeConfidence_cons, if_pos hA]
    refine ⟨heq, ?_⟩
    rw [heq]
    have := Real.sqrt_nonneg ((minSqDist (f :: fs) probe : ℚ) : ℝ)
    linarith

/-- Witness for the amended C9 at a concrete input: registry
`[(id 1, encoding [0])]`, probe `[0]`, tolerance `1` - an accepted match
whose confidence is `1 - sqrt 0 = 1 ≤ 1`. -/
theorem confidence_formula_unclamped_witness :
    recognizeConfidence [KnownFace.mk 1 "A" [0]] [0] 1
      = 1 - Real.sqrt ((minSqDist [KnownFace.mk 1 "A" [0]] [0] : ℚ) : ℝ)
    ∧ recognizeConfidence [KnownFace.mk 1 "A" [0]] [0] 1 ≤ 1 :=
  confidence_formula_unclamped [KnownFace.mk 1 "A" [0]] [0] 1 1
    (by norm_num [recognizeId, sqDists, bestIndex, argminFrom, minFrom, acceptTest, sqDist])

end AttendanceCam
